import Mathlib

/-!
Shallow embedding of the directory-listing utilities of `mini-os-python`
(`src/ls.py`, with `sizeof_fmt` duplicated in `src/fileread.py`): the size
humanizer `sizeof_fmt`, the collector `list_directory`, the renderer
`print_directory_listing`, the `ls` entry point, and the trailing
"rly simple" shell section with its module-level `current_dir`.

Host-environment and runtime-builtin effects are passed in explicitly: the
outcome of `os.listdir` and of the per-entry metadata fetches are inputs,
the terminal width is an `Option Nat`, `os.stat(...).st_blocks` is a
function returning `none` where the stat raises `OSError`, and `str.lower`
(full Unicode case folding) and `format_time` (strftime over localtime,
host dependent) are function parameters; everything written to stdout is
returned as a list of output events, with `none` results modelling an
uncaught exception. Python floats are modelled by exact dyadic rationals,
with the rounding int→double conversion made explicit (`floatOfNat`).
-/

/-- One stdout event: `txt s` is `print(s, end="")`; `nl` is the newline a
`print` call emits at the end of a line. -/
inductive Out where
  | txt (s : String)
  | nl
deriving DecidableEq

/-- Stdout events regrouped into physical lines: the text between newlines,
with an unterminated trailing fragment counting as a final line. -/
def outLinesGo (acc : String) : List Out → List String
  | [] => if acc = "" then [] else [acc]
  | Out.txt s :: ts => outLinesGo (acc ++ s) ts
  | Out.nl :: ts => acc :: outLinesGo "" ts

/-- All physical lines of a stdout event list. -/
def outLines (l : List Out) : List String := outLinesGo "" l

/-- Python `s.startswith(p)`, structurally on the character lists. -/
def strStartsWith (s p : String) : Bool := p.data.isPrefixOf s.data

/-- Python `s.endswith(p)`, structurally on the character lists. -/
def strEndsWith (s p : String) : Bool := p.data.isSuffixOf s.data

/-- Lexicographic order on character lists by code point: Python `str` `<=`. -/
def charListLe : List Char → List Char → Bool
  | [], _ => true
  | _ :: _, [] => false
  | a :: as, b :: bs => if a < b then true else if b < a then false else charListLe as bs

/-- Python `f"{s:<{w}}"`: left-justify `s` in a field of `w` characters. -/
def padRight (s : String) (w : Nat) : String :=
  s ++ String.mk (List.replicate (w - s.length) ' ')

/-- Python `f"{s:>{w}}"`: right-justify `s` in a field of `w` characters. -/
def padLeft (s : String) (w : Nat) : String :=
  String.mk (List.replicate (w - s.length) ' ') ++ s

/-- An exact dyadic rational `num / 2 ^ exp`. Every IEEE double holds such a
value, and once `sizeof_fmt`'s `num` is a double the only operation applied
to it — division by `1024.0` — is an exact exponent shift, so each float the
loop reaches is represented exactly by such a pair. The initial int→double
conversion itself rounds; `floatOfNat` below models that step. -/
structure Dyadic where
  num : Int
  exp : Nat
deriving DecidableEq

/-- The exact value of the integer byte count `b`, with no rounding: what
the first loop guard compares (CPython int-float comparisons are exact) and
what the spec's `humanizeSize` scales. The rounding int→double conversion
that the program performs at its first division is `floatOfNat` below. -/
def Dyadic.ofNat (b : Nat) : Dyadic := ⟨b, 0⟩

/-- `num /= 1024.0`: exact on the dyadic value, the exponent drops by 10. -/
def Dyadic.div1024 (x : Dyadic) : Dyadic := ⟨x.num, x.exp + 10⟩

/-- `abs(num) < c` for the dyadic value `num / 2 ^ exp`. -/
def Dyadic.absLt (x : Dyadic) (c : Nat) : Bool :=
  decide (x.num.natAbs < c * 2 ^ x.exp)

/-- `round(a / d)` with ties to even (`d > 0`): the rounding CPython applies
both when formatting to one fractional digit and when converting an int to
a double. -/
def roundHalfEvenDiv (a d : Nat) : Nat :=
  let q := a / d
  let r := a % d
  if 2 * r < d then q else if d < 2 * r then q + 1 else if q % 2 = 0 then q else q + 1

/-- Python `f"{v:.1f}"` on the exact dyadic value: CPython prints the exact
binary value correctly rounded to one fractional digit with ties to even. -/
def fmt1 (x : Dyadic) : String :=
  let n : Nat := roundHalfEvenDiv (10 * x.num.natAbs) (2 ^ x.exp)
  (if x.num < 0 then "-" else "") ++ toString (n / 10) ++ "." ++ toString (n % 10)

/-- The unit list `["", "K", "M", "G", "T", "P"]` of `sizeof_fmt`. -/
def sizeofUnits : List String := ["", "K", "M", "G", "T", "P"]

/-- The `for unit in [...]` loop of `sizeof_fmt`: return at the first unit
where `abs(num) < 1024.0`, otherwise divide and continue; after the loop the
overflow unit is `"Y"`. -/
def sizeofFmtGo (suffix : String) : List String → Dyadic → String
  | [], num => fmt1 num ++ "Y" ++ suffix
  | unit :: units, num =>
    if num.absLt 1024 then fmt1 num ++ unit ++ suffix
    else sizeofFmtGo suffix units num.div1024

/-- `sizeof_fmt(num, suffix="B")` from `src/ls.py` (textually identical in
`src/fileread.py`). -/
def sizeof_fmt (num : Dyadic) (suffix : String := "B") : String :=
  sizeofFmtGo suffix sizeofUnits num

/-- The number of low bits the int→double conversion drops from `b`:
halvings until the value is below `2 ^ 53`. The first argument is recursion
fuel; `b` itself is always enough. -/
def dropBits : Nat → Nat → Nat
  | 0, _ => 0
  | f + 1, b => if b < 2 ^ 53 then 0 else dropBits f (b / 2) + 1

/-- CPython `float(b)` for a nonnegative int `b`: round to 53 significant
bits with ties to even, exactly `⟨b, 0⟩` when `b < 2 ^ 53`; `none` models
the `OverflowError` raised when the rounded value reaches `2 ^ 1024`. -/
def floatOfNat (b : Nat) : Option Dyadic :=
  if b < 2 ^ 53 then some ⟨b, 0⟩
  else
    let k := dropBits b b
    let v := roundHalfEvenDiv b (2 ^ k) * 2 ^ k
    if v < 2 ^ 1024 then some ⟨v, 0⟩ else none

/-- `sizeof_fmt(b)` as the program calls it, on a Python `int` byte count:
the first loop guard `abs(num) < 1024.0` compares the integer exactly and,
when it holds, `f"{num:.1f}"` formats the (exactly converted) value; if a
division is needed, `num /= 1024.0` first converts the int to a double —
rounding it, or raising `OverflowError` (the `none` case) — after which
every value is an exact exponent shift, and the loop continues over the
remaining units `["K", "M", "G", "T", "P"]`. -/
def sizeof_fmt_int (b : Nat) : Option String :=
  if b < 1024 then some (fmt1 (Dyadic.ofNat b) ++ "" ++ "B")
  else
    match floatOfNat b with
    | none => none
    | some x => some (sizeofFmtGo "B" ["K", "M", "G", "T", "P"] x.div1024)

/-- Modelled from the spec: the fixed unit sequence `["", "K", "M", "G",
"T", "P"]` followed by `"Y"` as the final overflow unit. -/
def humanUnits : List String := sizeofUnits ++ ["Y"]

/-- Modelled from the spec: the `humanizeSize` scaling loop — while the
absolute value is at least 1024 and a larger unit remains in the sequence,
divide by 1024 and advance to the next unit. `i` is the current unit index
and the countdown argument is the number of units still ahead of it. -/
def humanizeGo (x : Dyadic) (i : Nat) : Nat → Dyadic × Nat
  | 0 => (x, i)
  | k + 1 =>
    if 1024 * 2 ^ x.exp ≤ x.num.natAbs then humanizeGo x.div1024 (i + 1) k else (x, i)

/-- Modelled from the spec: `humanizeSize(bytes)` — scale the value, then
print it with exactly one fractional digit, the chosen unit letter, and the
fixed suffix `"B"`. -/
def humanizeSize (b : Nat) : String :=
  let p := humanizeGo (Dyadic.ofNat b) 0 (humanUnits.length - 1)
  fmt1 p.1 ++ humanUnits.getD p.2 "" ++ "B"

/-- One element of the list `list_directory` returns (the Python dict). -/
structure Entry where
  name : String
  is_dir : Bool
  size : Nat
  mod_time : Int
  is_executable : Bool
  full_path : String
deriving DecidableEq

/-- One raw child of the listed directory together with the outcomes of the
host calls made for it: `os.path.isdir`, `os.path.getsize` and
`os.path.getmtime` (`none` means the call raises `OSError`), and
`os.access(item_path, os.X_OK)`. -/
structure RawItem where
  name : String
  is_dir : Bool
  sizeResult : Option Nat
  mtimeResult : Option Int
  x_ok : Bool
deriving DecidableEq

/-- Outcome of `os.listdir(path)`. -/
inductive ListdirOutcome where
  | ok (raw : List RawItem)
  | permissionError
  | fileNotFoundError

/-- `os.path.join(path, item)` for a separator-free item name. -/
def joinPath (p name : String) : String :=
  if strEndsWith p "/" then p ++ name else p ++ "/" ++ name

/-- The per-child body of the `for item in os.listdir(path)` loop of
`list_directory`: metadata is fetched only in long format, inside one `try`
block, so a failing `getsize` leaves both zero defaults in place (a failing
`getmtime` only zeroes the time), and `is_executable` is the access bit
masked by `not is_dir`. -/
def processItem (path : String) (long_format : Bool) (r : RawItem) : Entry :=
  let item_path := joinPath path r.name
  let sm : Nat × Int :=
    if long_format then
      if r.is_dir then (0, r.mtimeResult.getD 0)
      else
        match r.sizeResult with
        | none => (0, 0)
        | some s => (s, r.mtimeResult.getD 0)
    else (0, 0)
  { name := r.name, is_dir := r.is_dir, size := sm.1, mod_time := sm.2,
    is_executable := r.x_ok && !r.is_dir, full_path := item_path }

/-- The comparison behind
`items.sort(key=lambda x: (not x['is_dir'], x['name'].lower()))`: `<=` in
the lexicographic order on the key pair, with `False < True`. The builtin
`str.lower` (full Unicode case folding, a fixed function of the Python
runtime whose tables we do not reproduce) is the explicit parameter
`lower`, like the other host-provided functions. -/
def entryLE (lower : String → String) (a b : Entry) : Bool :=
  let ra : Nat := if a.is_dir then 0 else 1
  let rb : Nat := if b.is_dir then 0 else 1
  if ra < rb then true
  else if rb < ra then false
  else charListLe (lower a.name).data (lower b.name).data

/-- `list_directory(path, show_hidden, long_format)` from `src/ls.py`: the
returned list paired with the stdout events. Python's stable `list.sort` is
modelled by the stable `List.mergeSort`; `lower` is the runtime's
`str.lower` used by the sort key; the `except` clauses around the
enumeration print a message and return the empty list. -/
def list_directory (lower : String → String) (path : String)
    (show_hidden long_format : Bool) (fs : ListdirOutcome) : List Entry × List Out :=
  match fs with
  | .ok raw =>
    let kept := raw.filter (fun r => show_hidden || !(strStartsWith r.name "."))
    ((kept.map (processItem path long_format)).mergeSort (entryLE lower), [])
  | .permissionError =>
    ([], [Out.txt ("ls: cannot open directory '" ++ path ++ "': Permission denied"), Out.nl])
  | .fileNotFoundError =>
    ([], [Out.txt ("ls: cannot access '" ++ path ++ "': No such file or directory"), Out.nl])

/-- `get_file_color(is_dir, is_executable)` from `src/ls.py`. -/
def get_file_color (is_dir is_executable : Bool) : String :=
  if is_dir then "\x1b[94m" else if is_executable then "\x1b[92m" else "\x1b[0m"

/-- The displayed name: directories get a trailing slash appended. -/
def displayName (e : Entry) : String := if e.is_dir then e.name ++ "/" else e.name

/-- One long-format line:
`f"{color_code}{name:<30} {size:>8} {mod_time}\033[0m"`, with an empty size
field for directories. The size text is `sizeof_fmt` on the integer size;
its `none` (OverflowError) branch would need a size of at least `2 ^ 1024`,
which no `stat` can report, so the default there is dead. -/
def longLine (fmtTime : Int → String) (e : Entry) : String :=
  get_file_color e.is_dir e.is_executable ++ padRight (displayName e) 30 ++ " " ++
    padLeft (if e.is_dir then "" else (sizeof_fmt_int e.size).getD "") 8 ++ " " ++
    fmtTime e.mod_time ++ "\x1b[0m"

/-- `max(len(item['name']) for item in items)` (0 on the empty list, which
the caller rules out before computing it). -/
def maxNameLen (items : List Entry) : Nat :=
  items.foldl (fun m e => max m e.name.length) 0

/-- `max_len = max(len(item['name']) for item in items) + 2`. -/
def columnWidth (items : List Entry) : Nat := maxNameLen items + 2

/-- `cols = max(1, terminal_width // max_len)`, or 1 when
`os.get_terminal_size` raises `OSError`. -/
def columnCount (termW : Option Nat) (w : Nat) : Nat :=
  match termW with
  | some tw => max 1 (tw / w)
  | none => 1

/-- One compact-mode cell: `f"{color_code}{name:<{max_len}}\033[0m"`. -/
def compactCell (w : Nat) (e : Entry) : String :=
  get_file_color e.is_dir e.is_executable ++ padRight (displayName e) w ++ "\x1b[0m"

/-- The compact-mode `for i, item in enumerate(items)` loop over the
prepared cells: each cell is printed with `end=""`, and a bare `print()`
follows after every `cols`-th cell and after the last one. -/
def compactEmit (n cols : Nat) : Nat → List String → List Out
  | _, [] => []
  | i, c :: rest =>
    Out.txt c ::
      (if (i + 1) % cols == 0 || i == n - 1
        then Out.nl :: compactEmit n cols (i + 1) rest
        else compactEmit n cols (i + 1) rest)

/-- `sum(os.stat(item['full_path']).st_blocks for item in items)`: the
per-entry stat has no `try` around it, so the first entry whose stat raises
`OSError` (`blocks` returning `none`) aborts the whole sum. -/
def sumBlocks (blocks : String → Option Nat) : List Entry → Option Nat
  | [] => some 0
  | e :: rest =>
    match blocks e.full_path with
    | none => none
    | some b => (sumBlocks blocks rest).map (fun s => b + s)

/-- `print_directory_listing(items, long_format, path)` from `src/ls.py`;
`blocks` models `os.stat(full_path).st_blocks` with `none` for an entry on
which that stat raises `OSError`, and `fmtTime` models `format_time`. The
block-count sum on the `total` line is computed with no exception handler,
so one failing stat raises out of the whole long-format render: the `none`
result, with nothing emitted. -/
def print_directory_listing (items : List Entry) (long_format : Bool) (path : String)
    (termW : Option Nat) (blocks : String → Option Nat) (fmtTime : Int → String) :
    Option (List Out) :=
  if items.isEmpty then
    some [Out.txt ("Directory '" ++ path ++ "' is empty."), Out.nl]
  else if long_format then
    match sumBlocks blocks items with
    | none => none
    | some s =>
      some (Out.txt ("total " ++ toString (s / 2)) :: Out.nl ::
        items.flatMap (fun e => [Out.txt (longLine fmtTime e), Out.nl]))
  else
    let w := columnWidth items
    some (compactEmit items.length (columnCount termW w) 0 (items.map (compactCell w)))

/-- Modelled from the spec: `columnWidth = maxNameLength(entries) + 2` where
a directory's trailing separator is appended to its displayed name before
the width is measured. -/
def columnWidthSpec (items : List Entry) : Nat :=
  items.foldl (fun m e => max m (displayName e).length) 0 + 2

/-- What the host says about the `path` argument of `ls` itself
(`os.path.exists` / `os.path.isdir`), with the metadata `ls` fetches when
the path is a plain file. -/
inductive PathKind where
  | missing
  | file (size : Nat) (mtime : Int) (x_ok : Bool)
  | dir

/-- `os.path.basename`. -/
def basename (path : String) : String :=
  List.getLastD (path.splitOn "/") path

/-- `ls(path, all_files, long_format)` from `src/ls.py`: the returned value
(`None` for a missing path) paired with the stdout events; the outer `none`
models an uncaught exception escaping `ls` (only the long-format
block-count stat can raise one). -/
def ls (lower : String → String) (path : String) (all_files long_format : Bool)
    (pk : PathKind) (fs : ListdirOutcome) (termW : Option Nat)
    (blocks : String → Option Nat) (fmtTime : Int → String) :
    Option (Option (List Entry) × List Out) :=
  match pk with
  | .missing =>
    some (none,
      [Out.txt ("ls: cannot access '" ++ path ++ "': No such file or directory"), Out.nl])
  | .file size mtime x_ok =>
    some (some [{ name := basename path, is_dir := false, size := size, mod_time := mtime,
                  is_executable := x_ok, full_path := path }],
      [Out.txt (get_file_color false x_ok ++ path ++ "\x1b[0m"), Out.nl])
  | .dir =>
    let r := list_directory lower path all_files long_format fs
    match print_directory_listing r.1 long_format path termW blocks fmtTime with
    | none => none
    | some out2 => some (some r.1, r.2 ++ out2)

/-- The module-level mutable `current_dir` of the trailing "rly simple"
section of `src/ls.py`. -/
structure ShellState where
  current_dir : String
deriving DecidableEq

/-- The final `ls()` binding of `src/ls.py` (the "rly simple" one, which
shadows the full version at module level): it takes no arguments and prints
every name `os.listdir` returns for the module-level `current_dir`. -/
def ls_simple (listdir : String → List String) (s : ShellState) : List Out :=
  (listdir s.current_dir).flatMap (fun f => [Out.txt f, Out.nl])

/-- The final `cd(path)` of `src/ls.py`: `os.chdir` plus `os.getcwd` are
modelled by `chdir`, which returns the new canonical working directory or
`none` when `os.chdir` raises `FileNotFoundError`; on success the global
`current_dir` is reassigned. -/
def cd_simple (chdir : String → Option String) (path : String) (s : ShellState) :
    ShellState × List Out :=
  match chdir path with
  | some d => ({ current_dir := d }, [])
  | none => (s, [Out.txt "Directory not found", Out.nl])

/-- Row-shape checker over stdout events: given that `cnt` cells of the
current row have been seen, `true` iff no row (maximal newline-free run of
cells) ever holds more than `cols` cells. -/
def rowsOk (cols : Nat) : List Out → Nat → Bool
  | [], cnt => decide (cnt ≤ cols)
  | Out.txt _ :: ts, cnt => decide (cnt + 1 ≤ cols) && rowsOk cols ts (cnt + 1)
  | Out.nl :: ts, _ => rowsOk cols ts 0

lemma charListLe_total : ∀ (as bs : List Char), (charListLe as bs || charListLe bs as) = true := by
  intro as
  induction as with
  | nil => intro bs; simp [charListLe]
  | cons a as ih =>
    intro bs
    cases bs with
    | nil => simp [charListLe]
    | cons b bs =>
      simp only [charListLe]
      rcases lt_trichotomy a b with h | h | h
      · simp [h]
      · subst h
        simpa [lt_irrefl] using ih bs
      · simp [h, not_lt.mpr h.le]

lemma charListLe_trans : ∀ (as bs cs : List Char),
    charListLe as bs = true → charListLe bs cs = true → charListLe as cs = true := by
  intro as
  induction as with
  | nil => intro bs cs _ _; rfl
  | cons a as ih =>
    intro bs cs h1 h2
    cases bs with
    | nil => simp [charListLe] at h1
    | cons b bs =>
      cases cs with
      | nil => simp [charListLe] at h2
      | cons c cs =>
        simp only [charListLe] at h1 h2 ⊢
        rcases lt_trichotomy a b with hab | hab | hab
        · rcases lt_trichotomy b c with hbc | hbc | hbc
          · simp [lt_trans hab hbc]
          · subst hbc; simp [hab]
          · rw [if_neg (not_lt.mpr hbc.le), if_pos hbc] at h2
            simp at h2
        · subst hab
          rw [if_neg (lt_irrefl a), if_neg (lt_irrefl a)] at h1
          rcases lt_trichotomy a c with hac | hac | hac
          · simp [hac]
          · subst hac
            rw [if_neg (lt_irrefl a), if_neg (lt_irrefl a)] at h2 ⊢
            exact ih bs cs h1 h2
          · rw [if_neg (not_lt.mpr hac.le), if_pos hac] at h2
            simp at h2
        · rw [if_neg (not_lt.mpr hab.le), if_pos hab] at h1
          simp at h1

lemma entryLE_total (lower : String → String) :
    ∀ (a b : Entry), (entryLE lower a b || entryLE lower b a) = true := by
  intro a b
  simp only [entryLE]
  cases ha : a.is_dir <;> cases hb : b.is_dir <;>
    simp [charListLe_total]

lemma entryLE_trans (lower : String → String) : ∀ (a b c : Entry),
    entryLE lower a b = true → entryLE lower b c = true → entryLE lower a c = true := by
  intro a b c h1 h2
  simp only [entryLE] at h1 h2 ⊢
  cases ha : a.is_dir <;> cases hb : b.is_dir <;> cases hc : c.is_dir <;>
    simp_all <;>
    exact charListLe_trans _ _ _ h1 h2

lemma mem_list_directory_ok {lower : String → String} {path : String} {sh lf : Bool}
    {raw : List RawItem} {e : Entry} :
    e ∈ (list_directory lower path sh lf (ListdirOutcome.ok raw)).1 ↔
      ∃ r ∈ raw.filter (fun x => sh || !(strStartsWith x.name ".")),
        processItem path lf r = e := by
  simp [list_directory, List.mem_mergeSort]

lemma entryLE_imp_rel {lower : String → String} {a b : Entry}
    (h : entryLE lower a b = true) :
    (a.is_dir = true ∧ b.is_dir = false) ∨
      (a.is_dir = b.is_dir ∧
        charListLe (lower a.name).data (lower b.name).data = true) := by
  simp only [entryLE] at h
  cases ha : a.is_dir <;> cases hb : b.is_dir <;> simp_all

lemma padRight_length {s : String} {w : Nat} (h : s.length ≤ w) :
    (padRight s w).length = w := by
  simp [padRight, String.length_append, String.length_mk]
  omega

lemma foldl_max_init_le (f : Entry → Nat) :
    ∀ (l : List Entry) (a : Nat), a ≤ l.foldl (fun m e => max m (f e)) a := by
  intro l
  induction l with
  | nil => intro a; simp
  | cons x xs ih =>
    intro a
    calc a ≤ max a (f x) := le_max_left _ _
    _ ≤ xs.foldl (fun m e => max m (f e)) (max a (f x)) := ih _

lemma le_foldl_max (f : Entry → Nat) :
    ∀ (l : List Entry) (a : Nat) (e : Entry), e ∈ l →
      f e ≤ l.foldl (fun m e => max m (f e)) a := by
  intro l
  induction l with
  | nil => intro a e he; simp at he
  | cons x xs ih =>
    intro a e he
    rcases List.mem_cons.mp he with rfl | hmem
    · calc f e ≤ max a (f e) := le_max_right _ _
      _ ≤ xs.foldl (fun m y => max m (f y)) (max a (f e)) := foldl_max_init_le f xs _
    · exact ih _ e hmem

lemma succ_mod (i c : Nat) (hc : 0 < c) :
    ((i + 1) % c = 0 ∧ i % c + 1 = c) ∨ ((i + 1) % c = i % c + 1 ∧ i % c + 1 < c) := by
  have hq := Nat.mod_add_div i c
  have hlt : i % c < c := Nat.mod_lt _ hc
  have key : (i + 1) % c = (i % c + 1) % c := by
    have h2 : i + 1 = (i % c + 1) + c * (i / c) := by omega
    rw [h2, Nat.add_mul_mod_self_left]
  rcases Nat.lt_or_ge (i % c + 1) c with h | h
  · right
    exact ⟨by rw [key, Nat.mod_eq_of_lt h], h⟩
  · left
    have he : i % c + 1 = c := by omega
    exact ⟨by rw [key, he, Nat.mod_self], he⟩

lemma compactEmit_cons (n cols i : Nat) (c : String) (rest : List String) :
    compactEmit n cols i (c :: rest) =
      Out.txt c ::
        (if (i + 1) % cols == 0 || i == n - 1
          then Out.nl :: compactEmit n cols (i + 1) rest
          else compactEmit n cols (i + 1) rest) := rfl

lemma rowsOk_txt (cols : Nat) (s : String) (ts : List Out) (cnt : Nat) :
    rowsOk cols (Out.txt s :: ts) cnt = (decide (cnt + 1 ≤ cols) && rowsOk cols ts (cnt + 1)) := rfl

lemma rowsOk_nl (cols : Nat) (ts : List Out) (cnt : Nat) :
    rowsOk cols (Out.nl :: ts) cnt = rowsOk cols ts 0 := rfl

lemma rowsOk_compactEmit (cols : Nat) (hc : 0 < cols) :
    ∀ (cells : List String) (i n : Nat), n = i + cells.length →
      rowsOk cols (compactEmit n cols i cells) (i % cols) = true := by
  intro cells
  induction cells with
  | nil =>
    intro i n _
    have : i % cols < cols := Nat.mod_lt _ hc
    simp [compactEmit, rowsOk]
    omega
  | cons c rest ih =>
    intro i n hn
    have hcnt : i % cols < cols := Nat.mod_lt _ hc
    rw [compactEmit_cons]
    cases rest with
    | nil =>
      have hni : (i == n - 1) = true := by
        simp only [List.length_cons, List.length_nil] at hn
        simp
        omega
      rw [hni, Bool.or_true, if_pos rfl, rowsOk_txt, rowsOk_nl]
      simp only [compactEmit, rowsOk, Bool.and_eq_true, decide_eq_true_eq]
      omega
    | cons c2 rest2 =>
      have hlen : n = i + rest2.length + 2 := by
        simp only [List.length_cons] at hn
        omega
      have hne : i ≠ n - 1 := by omega
      have htail := ih (i + 1) n (by simp only [List.length_cons]; omega)
      by_cases hm : (i + 1) % cols = 0
      · have hcond : (((i + 1) % cols == 0) || (i == n - 1)) = true := by simp [hm]
        rw [hcond, if_pos rfl, rowsOk_txt, rowsOk_nl]
        rw [hm] at htail
        rw [htail]
        simp only [Bool.and_true, decide_eq_true_eq]
        omega
      · have hcond : (((i + 1) % cols == 0) || (i == n - 1)) = false := by
          simp [hm, hne]
        rw [hcond, if_neg Bool.false_ne_true, rowsOk_txt]
        rcases succ_mod i cols hc with ⟨h0, _⟩ | ⟨heq, _⟩
        · exact absurd h0 hm
        · rw [heq] at htail
          rw [htail]
          simp only [Bool.and_true, decide_eq_true_eq]
          omega

lemma getLast_compactEmit (cols : Nat) :
    ∀ (cells : List String) (i n : Nat), cells ≠ [] → n = i + cells.length →
      (compactEmit n cols i cells).getLast? = some Out.nl := by
  intro cells
  induction cells with
  | nil => intro i n h _; exact absurd rfl h
  | cons c rest ih =>
    intro i n _ hn
    rw [compactEmit_cons]
    cases rest with
    | nil =>
      have hni : (i == n - 1) = true := by
        simp only [List.length_cons, List.length_nil] at hn
        simp
        omega
      rw [hni, Bool.or_true, if_pos rfl]
      simp [compactEmit]
    | cons c2 rest2 =>
      have hrec := ih (i + 1) n (by simp) (by simp only [List.length_cons] at hn ⊢; omega)
      obtain ⟨x, xs, hL⟩ : ∃ x xs, compactEmit n cols (i + 1) (c2 :: rest2) = x :: xs := by
        cases hE : compactEmit n cols (i + 1) (c2 :: rest2) with
        | nil => rw [hE] at hrec; simp at hrec
        | cons x xs => exact ⟨x, xs, rfl⟩
      rw [hL] at hrec
      by_cases hcond : (((i + 1) % cols == 0) || (i == n - 1)) = true
      · rw [if_pos hcond, hL, List.getLast?_cons_cons, List.getLast?_cons_cons]
        exact hrec
      · rw [if_neg hcond, hL, List.getLast?_cons_cons]
        exact hrec

lemma humanize_go_eq : ∀ (k : Nat) (x : Dyadic) (i : Nat), i + k = 6 →
    fmt1 (humanizeGo x i k).1 ++ humanUnits.getD (humanizeGo x i k).2 "" ++ "B"
      = sizeofFmtGo "B" (sizeofUnits.drop i) x := by
  intro k
  induction k with
  | zero =>
    intro x i h
    have h6 : i = 6 := by omega
    subst h6
    rfl
  | succ k ih =>
    intro x i h
    have hi : i < sizeofUnits.length := by simp [sizeofUnits]; omega
    rw [List.drop_eq_getElem_cons hi]
    simp only [humanizeGo, sizeofFmtGo]
    by_cases h1024 : 1024 * 2 ^ x.exp ≤ x.num.natAbs
    · have habs : x.absLt 1024 = false := by
        simp only [Dyadic.absLt, decide_eq_false_iff_not, not_lt]
        omega
      rw [if_pos h1024, habs, if_neg Bool.false_ne_true]
      exact ih x.div1024 (i + 1) (by omega)
    · have habs : x.absLt 1024 = true := by
        simp only [Dyadic.absLt, decide_eq_true_eq]
        omega
      rw [if_neg h1024, habs, if_pos rfl]
      have hgetD : humanUnits.getD i "" = sizeofUnits[i] := by
        simp only [humanUnits]
        rw [List.getD_append _ _ _ _ hi, List.getD_eq_getElem _ _ hi]
      rw [hgetD]

lemma humanizeSize_eq_sizeof_fmt (b : Nat) :
    humanizeSize b = sizeof_fmt (Dyadic.ofNat b) := by
  have h := humanize_go_eq 6 (Dyadic.ofNat b) 0 rfl
  simpa [humanizeSize, sizeof_fmt] using h

set_option maxRecDepth 4000 in
/-- C1 counterexample: at `b = 401 * 2 ^ 48 + 1` (above `2 ^ 53`) the
program's first division `num /= 1024.0` rounds the int to a double,
dropping the low bit, and the program prints "100.2PB", while the spec's
exact scaling algorithm (`humanizeSize`) yields "100.3PB" — so the claimed
agreement with the spec algorithm for every byte count fails. -/
theorem claim1_counterexample :
    sizeof_fmt_int (401 * 2 ^ 48 + 1) = some "100.2PB" ∧
    humanizeSize (401 * 2 ^ 48 + 1) = "100.3PB" ∧
    sizeof_fmt_int (401 * 2 ^ 48 + 1) ≠ some (humanizeSize (401 * 2 ^ 48 + 1)) := by
  refine ⟨by decide, by decide, by decide⟩

/-- C1 amended: for every integer byte count below `2 ^ 53` — the range on
which the int→double conversion is exact — `sizeof_fmt` follows the spec's
`humanizeSize` algorithm exactly, and in particular maps 0, 1023, 1024,
1536 and 1024^4 to "0.0B", "1023.0B", "1.0KB", "1.5KB" and "1.0TB"; for
larger counts the first division rounds the value to 53 significant bits,
and from about `2 ^ 1024` on it raises `OverflowError` instead of
returning. -/
theorem claim1_amended :
    (∀ b : Nat, b < 2 ^ 53 → sizeof_fmt_int b = some (humanizeSize b)) ∧
    sizeof_fmt_int 0 = some "0.0B" ∧
    sizeof_fmt_int 1023 = some "1023.0B" ∧
    sizeof_fmt_int 1024 = some "1.0KB" ∧
    sizeof_fmt_int 1536 = some "1.5KB" ∧
    sizeof_fmt_int (1024 ^ 4) = some "1.0TB" := by
  refine ⟨fun b hb => ?_, by decide, by decide, by decide, by decide, by decide⟩
  rw [humanizeSize_eq_sizeof_fmt]
  by_cases h1 : b < 1024
  · have habs : (Dyadic.ofNat b).absLt 1024 = true := by
      simp only [Dyadic.absLt, Dyadic.ofNat, decide_eq_true_eq, Int.natAbs_ofNat,
        pow_zero, mul_one]
      exact h1
    simp only [sizeof_fmt_int, if_pos h1, sizeof_fmt, sizeofUnits, sizeofFmtGo, habs,
      if_true]
  · have habs : (Dyadic.ofNat b).absLt 1024 = false := by
      simp only [Dyadic.absLt, Dyadic.ofNat, decide_eq_false_iff_not, not_lt,
        Int.natAbs_ofNat, pow_zero, mul_one]
      omega
    simp only [sizeof_fmt_int, if_neg h1, floatOfNat, if_pos hb, sizeof_fmt, sizeofUnits,
      sizeofFmtGo, habs, if_neg Bool.false_ne_true]
    rfl

/-- C1 witness: 1536 is below `2 ^ 53` and the amended agreement holds
there. -/
theorem claim1_witness :
    1536 < 2 ^ 53 ∧ sizeof_fmt_int 1536 = some (humanizeSize 1536) :=
  ⟨by decide, claim1_amended.1 1536 (by decide)⟩

/-- C2: for every runtime lower-casing function (the program's `str.lower`,
passed explicitly) and every listing, the returned list is sorted with
every directory before every non-directory, and inside each of the two
groups in lexicographic order of the lower-cased names. -/
theorem claim2_list_directory_sorted (lower : String → String) (path : String)
    (sh lf : Bool) (fs : ListdirOutcome) :
    List.Pairwise
      (fun a b : Entry =>
        (a.is_dir = true ∧ b.is_dir = false) ∨
          (a.is_dir = b.is_dir ∧
            charListLe (lower a.name).data (lower b.name).data = true))
      (list_directory lower path sh lf fs).1 := by
  cases fs with
  | ok raw =>
    have hs := List.sorted_mergeSort
      (fun a b c h1 h2 => entryLE_trans lower a b c h1 h2)
      (fun a b => entryLE_total lower a b)
      ((raw.filter (fun r => sh || !(strStartsWith r.name "."))).map (processItem path lf))
    exact hs.imp (fun h => entryLE_imp_rel h)
  | permissionError => simp [list_directory]
  | fileNotFoundError => simp [list_directory]

/-- C3: evaluation at the failing input. For a directory whose `os.listdir`
raises `PermissionError`, `ls` prints the permission-denied message, then
still renders the "Directory 'p' is empty." line, and returns the empty
list — exactly the value and rendering a genuinely empty directory
produces — so the error is neither a distinguishable result nor does it
short-circuit rendering. -/
theorem claim3_permission_denied_eval :
    ls (fun s => s) "p" false false PathKind.dir ListdirOutcome.permissionError none
        (fun _ => some 0) (fun _ => "") =
      some (some [],
        [Out.txt "ls: cannot open directory 'p': Permission denied", Out.nl,
         Out.txt "Directory 'p' is empty.", Out.nl]) ∧
    ls (fun s => s) "p" false false PathKind.dir (ListdirOutcome.ok []) none
        (fun _ => some 0) (fun _ => "") =
      some (some [], [Out.txt "Directory 'p' is empty.", Out.nl]) := by
  constructor
  · rfl
  · have h1 : list_directory (fun s => s) "p" false false (ListdirOutcome.ok []) =
        ([], []) := by
      simp [list_directory, List.mergeSort_nil]
    simp only [ls, h1]
    decide

/-- C4: evaluation at the failing input. Collect tolerates the failed
metadata fetch — the "broken" entry is kept with zeroed size and time — but
the long-format render then re-stats every entry for the block-count total
with no handler, so the stat's `OSError` on that same entry aborts the
whole render: `print_directory_listing` and `ls` produce nothing, not even
the lines of the other entries, where the claim says the failure stays
non-fatal to rendering. -/
theorem claim4_render_crash_eval :
    (∃ e ∈ (list_directory (fun s => s) "d" false true
        (ListdirOutcome.ok [⟨"broken", false, none, none, false⟩])).1,
        e.name = "broken" ∧ e.size = 0 ∧ e.mod_time = 0) ∧
    print_directory_listing
        (list_directory (fun s => s) "d" false true
          (ListdirOutcome.ok [⟨"broken", false, none, none, false⟩])).1
        true "d" none (fun _ => none) (fun _ => "t") = none ∧
    ls (fun s => s) "d" false true PathKind.dir
        (ListdirOutcome.ok [⟨"broken", false, none, none, false⟩]) none
        (fun _ => none) (fun _ => "t") = none := by
  have hfil : List.filter (fun r => false || !(strStartsWith r.name "."))
      [(⟨"broken", false, none, none, false⟩ : RawItem)] =
      [⟨"broken", false, none, none, false⟩] := by decide
  have h1 : (list_directory (fun s => s) "d" false true
      (ListdirOutcome.ok [⟨"broken", false, none, none, false⟩])).1 =
      [processItem "d" true ⟨"broken", false, none, none, false⟩] := by
    simp only [list_directory]
    rw [hfil]
    simp [List.mergeSort_singleton]
  have h2 : print_directory_listing
      (list_directory (fun s => s) "d" false true
        (ListdirOutcome.ok [⟨"broken", false, none, none, false⟩])).1
      true "d" none (fun _ => none) (fun _ => "t") = none := by
    rw [h1]
    decide
  refine ⟨?_, h2, ?_⟩
  · rw [h1]
    decide
  · simp only [ls, h2]

/-- C5 counterexample: for the single directory entry named "d" the code
measures the raw name (width 1 + 2 = 3) while the claimed rule measures the
displayed name "d/" (width 2 + 2 = 4), and compact rendering really pads
the cell to 3 characters ("d/ "), not 4. -/
theorem claim5_counterexample :
    columnWidth [⟨"d", true, 0, 0, false, "./d"⟩] = 3 ∧
    columnWidthSpec [⟨"d", true, 0, 0, false, "./d"⟩] = 4 ∧
    columnWidth [⟨"d", true, 0, 0, false, "./d"⟩] ≠
      columnWidthSpec [⟨"d", true, 0, 0, false, "./d"⟩] ∧
    print_directory_listing [⟨"d", true, 0, 0, false, "./d"⟩] false "p" (some 80)
        (fun _ => some 0) (fun _ => "") =
      some [Out.txt ("\x1b[94m" ++ "d/ " ++ "\x1b[0m"), Out.nl] := by
  refine ⟨by decide, by decide, by decide, by decide⟩

/-- C5 amended: in compact mode the column width equals 2 plus the maximum
length of the raw entry names (the trailing separator is appended to a
directory's displayed name only after the width is measured), and every
displayed name is padded to exactly that width. -/
theorem claim5_amended (e : Entry) (rest : List Entry) :
    columnWidth (e :: rest) = ((e :: rest).map (fun x => x.name.length)).foldl max 0 + 2 ∧
    ((e :: rest).all (fun it =>
        (padRight (displayName it) (columnWidth (e :: rest))).length ==
          columnWidth (e :: rest))) = true := by
  constructor
  · simp [columnWidth, maxNameLen, List.foldl_map]
  · rw [List.all_eq_true]
    intro it hit
    have hname : it.name.length ≤ maxNameLen (e :: rest) :=
      le_foldl_max (fun x => x.name.length) (e :: rest) 0 it hit
    have hdisp : (displayName it).length ≤ columnWidth (e :: rest) := by
      have hslash : ("/" : String).length = 1 := rfl
      rcases hd : it.is_dir <;>
        simp [displayName, hd, columnWidth, String.length_append, hslash] <;>
        omega
    simp [padRight_length hdisp]

/-- C6: with `show_hidden = False`, no entry returned by `list_directory`
has a name starting with the hidden-marker character '.', whatever the
lower-casing function, path, format and listdir outcome. -/
theorem claim6_no_hidden (lower : String → String) (path : String) (lf : Bool)
    (fs : ListdirOutcome) :
    ((list_directory lower path false lf fs).1.all
        (fun e => !(strStartsWith e.name "."))) = true := by
  cases fs with
  | ok raw =>
    rw [List.all_eq_true]
    intro e he
    obtain ⟨r, hrf, hre⟩ := mem_list_directory_ok.mp he
    have hcond := (List.mem_filter.mp hrf).2
    simp only [Bool.false_or] at hcond
    rw [← hre]
    simpa [processItem] using hcond
  | permissionError => rfl
  | fileNotFoundError => rfl

/-- C7: in compact mode on a non-empty entry list the render never raises:
it returns a token list in which, with
`cols = columnCount termW (columnWidth items)` (that is,
`max 1 (terminalWidth / columnWidth)`, or 1 when the width is unavailable),
no row ever holds more than `cols` cells, and which ends with a line break
even when the last row is partial. -/
theorem claim7_compact_rows (e : Entry) (rest : List Entry) (termW : Option Nat)
    (path : String) (blocks : String → Option Nat) (fmtTime : Int → String) :
    ∃ toks,
      print_directory_listing (e :: rest) false path termW blocks fmtTime = some toks ∧
      rowsOk (columnCount termW (columnWidth (e :: rest))) toks 0 = true ∧
      toks.getLast? = some Out.nl := by
  have hpos : 0 < columnCount termW (columnWidth (e :: rest)) := by
    cases termW with
    | none => exact Nat.one_pos
    | some tw => exact Nat.lt_of_lt_of_le Nat.one_pos (le_max_left 1 _)
  refine ⟨compactEmit (e :: rest).length (columnCount termW (columnWidth (e :: rest))) 0
    ((e :: rest).map (compactCell (columnWidth (e :: rest)))), ?_, ?_, ?_⟩
  · simp [print_directory_listing]
  · have h := rowsOk_compactEmit _ hpos
      ((e :: rest).map (compactCell (columnWidth (e :: rest)))) 0 (e :: rest).length
      (by simp)
    simpa using h
  · exact getLast_compactEmit _ ((e :: rest).map (compactCell (columnWidth (e :: rest))))
      0 (e :: rest).length (by simp) (by simp)

/-- C8: rendering an empty entry list never raises and emits exactly one
line — the "directory is empty" message — for both formats and any
terminal width, with no column or metadata logic executed. -/
theorem claim8_empty_render (path : String) (lf : Bool) (termW : Option Nat)
    (blocks : String → Option Nat) (fmtTime : Int → String) :
    print_directory_listing [] lf path termW blocks fmtTime =
      some [Out.txt ("Directory '" ++ path ++ "' is empty."), Out.nl] ∧
    (print_directory_listing [] lf path termW blocks fmtTime).map outLines =
      some ["Directory '" ++ path ++ "' is empty."] :=
  ⟨rfl, rfl⟩

/-- C9 counterexample: the trailing "rly simple" section of `src/ls.py`
keeps the module-level mutable `current_dir`, read by its final `ls`
binding and written by `cd`; running the same zero-argument `ls` before and
after a `cd` yields different output, refuting the no-retained-state
claim. -/
theorem claim9_counterexample :
    ls_simple (fun d => if d = "/a" then ["x"] else ["y"]) ⟨"/a"⟩ ≠
      ls_simple (fun d => if d = "/a" then ["x"] else ["y"])
        (cd_simple (fun p => if p = "/b" then some "/b" else none) "/b" ⟨"/a"⟩).1 := by
  decide

/-- C9 amended: the formatter functions (`list_directory`,
`print_directory_listing`, `ls`) take all their inputs as explicit
arguments, but the module's trailing simple-shell section is stateful: a
successful `cd` reassigns the module-level `current_dir`, and the final
`ls` binding then lists that directory, so its result depends on the
preceding `cd` calls. -/
theorem claim9_amended (listdir : String → List String) (chdir : String → Option String)
    (p d : String) (s : ShellState) (h : chdir p = some d) :
    (cd_simple chdir p s).1 = ⟨d⟩ ∧
    ls_simple listdir (cd_simple chdir p s).1 =
      (listdir d).flatMap (fun f => [Out.txt f, Out.nl]) := by
  simp [cd_simple, h, ls_simple]

/-- C9 witness: a concrete `cd` into "/b" updates the state and the
subsequent simple `ls` lists "/b". -/
theorem claim9_witness :
    ((fun p => if p = "/b" then some "/b" else none) "/b" = some "/b") ∧
    ((cd_simple (fun p => if p = "/b" then some "/b" else none) "/b" ⟨"/a"⟩).1 = ⟨"/b"⟩ ∧
      ls_simple (fun _ => ["y"])
          (cd_simple (fun p => if p = "/b" then some "/b" else none) "/b" ⟨"/a"⟩).1 =
        (["y"] : List String).flatMap (fun f => [Out.txt f, Out.nl])) :=
  ⟨by decide,
    claim9_amended (fun _ => ["y"]) (fun p => if p = "/b" then some "/b" else none)
      "/b" "/b" ⟨"/a"⟩ (by decide)⟩

/-- C10: every entry produced by `list_directory` satisfies the invariant
that a directory is never marked executable (`is_dir` implies
`not is_executable`), whatever the lower-casing function and listdir
outcome. -/
theorem claim10_dir_not_executable (lower : String → String) (path : String)
    (sh lf : Bool) (fs : ListdirOutcome) :
    ((list_directory lower path sh lf fs).1.all
        (fun e => !(e.is_dir && e.is_executable))) = true := by
  cases fs with
  | ok raw =>
    rw [List.all_eq_true]
    intro e he
    obtain ⟨r, _, hre⟩ := mem_list_directory_ok.mp he
    rw [← hre]
    cases hd : r.is_dir <;> simp [processItem, hd]
  | permissionError => rfl
  | fileNotFoundError => rfl
